import Mathlib

/-!
Verification development for the toplang compiler front end
(lexer.cpp, parser.cpp, codegen.cpp).  The C++ sources are embedded
shallowly: the lexer as a fuel-driven scanner over a list of bytes, the
recursive-descent parser as a fuel-driven token consumer returning
`Except`, and the LLVM-emitting code generator as a state machine over an
abstract SSA-style instruction list.  Machine doubles are modelled by
exact rationals (no claim under study depends on IEEE rounding).
-/

namespace Toplang

/-! ## Character classification (C locale, as used by cctype on ASCII) -/

def nulC : Char := '\x00'

def isspaceC (c : Char) : Bool :=
  c = ' ' || c = '\t' || c = '\n' || c = '\x0b' || c = '\x0c' || c = '\r'

def isalphaC (c : Char) : Bool :=
  ('a' ≤ c && c ≤ 'z') || ('A' ≤ c && c ≤ 'Z')

def isdigitC (c : Char) : Bool :=
  '0' ≤ c && c ≤ '9'

def isalnumC (c : Char) : Bool :=
  isalphaC c || isdigitC c

/-! ## Token model (token.h) -/

inductive TokenType where
  | FUNCTION | RETURN | IF | ELSE | WHILE | FOR | VARIABLE | CONSTANT | PRINT
  | PLUS | MINUS | MULTIPLY | DIVIDE | ASSIGN | EQUALS | NOT_EQUALS | GREATER | LESS
  | LEFT_BRACE | RIGHT_BRACE | LEFT_PAREN | RIGHT_PAREN | COMMA
  | IDENTIFIER | NUMBER | STRING | COMMENT | EOL | END_OF_FILE | UNKNOWN
  deriving DecidableEq, Repr

structure Token where
  type : TokenType
  value : String
  line : Nat
  column : Nat
  deriving DecidableEq, Repr

/-- Keyword table built in the Lexer constructor. -/
def keywordOf (s : String) : Option TokenType :=
  List.lookup s
    [("function", TokenType.FUNCTION), ("return", TokenType.RETURN),
     ("if", TokenType.IF), ("else", TokenType.ELSE),
     ("while", TokenType.WHILE), ("for", TokenType.FOR),
     ("var", TokenType.VARIABLE), ("const", TokenType.CONSTANT),
     ("print", TokenType.PRINT), ("plus", TokenType.PLUS),
     ("minus", TokenType.MINUS), ("times", TokenType.MULTIPLY),
     ("divided", TokenType.DIVIDE), ("is", TokenType.ASSIGN),
     ("equals", TokenType.EQUALS), ("not", TokenType.NOT_EQUALS),
     ("greater", TokenType.GREATER), ("less", TokenType.LESS)]

/-! ## Lexer state (lexer.cpp)

The C++ lexer keeps `(position, line, column)` into the source string and a
cached `currentChar` equal to `source[position]`, or to NUL once
`position ≥ length`.  We keep the not-yet-consumed suffix `rem` instead of
the index; `currentChar` is then the head of `rem` (NUL when empty). -/

structure LexState where
  rem : List Char
  line : Nat
  col : Nat
  deriving DecidableEq, Repr

def cur (s : LexState) : Char :=
  match s.rem with
  | [] => nulC
  | c :: _ => c

/-- Line/column update of `Lexer::advance`: after moving onto the next
character, `column` is incremented, and arriving at a newline sets
`line+1`, `column := 1`.  When the move runs past the end neither counter
changes. -/
def advStep (rest : List Char) (line col : Nat) : Nat × Nat :=
  match rest with
  | [] => (line, col)
  | d :: _ => if d = '\n' then (line + 1, 1) else (line, col + 1)

def advance (s : LexState) : LexState :=
  match s.rem with
  | [] => s
  | _ :: rest =>
    let lc := advStep rest s.line s.col
    ⟨rest, lc.1, lc.2⟩

/-- Loop body of `Lexer::identifier`: consume `[A-Za-z0-9_]*` (stopping at
NUL), accumulating the lexeme. -/
def identScan : List Char → Nat → Nat → String → String × LexState
  | [], line, col, acc => (acc, ⟨[], line, col⟩)
  | ch :: rest, line, col, acc =>
    if ch ≠ nulC && (isalnumC ch || ch = '_') then
      let lc := advStep rest line col
      identScan rest lc.1 lc.2 (acc.push ch)
    else (acc, ⟨ch :: rest, line, col⟩)

/-- Digit-consuming loop shared by the two phases of `Lexer::number`. -/
def digitScan : List Char → Nat → Nat → String → String × LexState
  | [], line, col, acc => (acc, ⟨[], line, col⟩)
  | ch :: rest, line, col, acc =>
    if ch ≠ nulC && isdigitC ch then
      let lc := advStep rest line col
      digitScan rest lc.1 lc.2 (acc.push ch)
    else (acc, ⟨ch :: rest, line, col⟩)

/-- Loop body of `Lexer::string`: consume until NUL or a closing quote. -/
def strScan : List Char → Nat → Nat → String → String × LexState
  | [], line, col, acc => (acc, ⟨[], line, col⟩)
  | ch :: rest, line, col, acc =>
    if ch ≠ nulC && ch ≠ '"' then
      let lc := advStep rest line col
      strScan rest lc.1 lc.2 (acc.push ch)
    else (acc, ⟨ch :: rest, line, col⟩)

/-- Loop body of `Lexer::skipWhitespace`. -/
def wsScan : List Char → Nat → Nat → LexState
  | [], line, col => ⟨[], line, col⟩
  | ch :: rest, line, col =>
    if ch ≠ nulC && isspaceC ch then
      let lc := advStep rest line col
      wsScan rest lc.1 lc.2
    else ⟨ch :: rest, line, col⟩

/-- Loop body of `Lexer::skipComment`: consume until NUL or newline. -/
def commentScan : List Char → Nat → Nat → LexState
  | [], line, col => ⟨[], line, col⟩
  | ch :: rest, line, col =>
    if ch ≠ nulC && ch ≠ '\n' then
      let lc := advStep rest line col
      commentScan rest lc.1 lc.2
    else ⟨ch :: rest, line, col⟩

/-- Full `Lexer::identifier`: scan the lexeme, record the line reached at
the end of the scan and the column from its start, and map keywords. -/
def identTok (s : LexState) : Token × LexState :=
  let startCol := s.col
  let r := identScan s.rem s.line s.col ("")
  let ty := (keywordOf r.1).getD TokenType.IDENTIFIER
  (⟨ty, r.1, r.2.line, startCol⟩, r.2)

/-- Full `Lexer::number`: digits, then optionally a dot and more digits. -/
def numTok (s : LexState) : Token × LexState :=
  let startCol := s.col
  let r1 := digitScan s.rem s.line s.col ("")
  if cur r1.2 = '.' then
    let s2 := advance r1.2
    let r2 := digitScan s2.rem s2.line s2.col (r1.1.push '.')
    (⟨TokenType.NUMBER, r2.1, r2.2.line, startCol⟩, r2.2)
  else
    (⟨TokenType.NUMBER, r1.1, r1.2.line, startCol⟩, r1.2)

/-- Full `Lexer::string`: skip the opening quote, take characters up to a
closing quote or NUL, then skip the closing quote when present. -/
def strTok (s : LexState) : Token × LexState :=
  let startCol := s.col
  let s0 := advance s
  let r := strScan s0.rem s0.line s0.col ("")
  let s2 := if cur r.2 = '"' then advance r.2 else r.2
  (⟨TokenType.STRING, r.1, s2.line, startCol⟩, s2)

/-- Dispatch order of one iteration of `Lexer::tokenize`'s loop: the
whitespace test, the identifier and number tests, then the switch over
special characters, in the exact textual order of lexer.cpp. -/
inductive CharClass where
  | nul | ws | alpha | digit | lbrace | rbrace | lparen | rparen | comma
  | quote | hash | newline | other
  deriving DecidableEq, Repr

def classify (c : Char) : CharClass :=
  if c = nulC then .nul
  else if isspaceC c then .ws
  else if isalphaC c || c = '_' then .alpha
  else if isdigitC c then .digit
  else if c = '\x7b' then .lbrace
  else if c = '\x7d' then .rbrace
  else if c = '(' then .lparen
  else if c = ')' then .rparen
  else if c = ',' then .comma
  else if c = '"' then .quote
  else if c = '#' then .hash
  else if c = '\n' then .newline
  else .other

/-- Main loop of `Lexer::tokenize`, driven by fuel.  One unit of fuel per
iteration of the C++ `while (currentChar != '\0')` loop; each iteration
consumes at least one character, so `length + 1` units always suffice. -/
def tokLoop : Nat → LexState → List Token × LexState
  | 0, s => ([], s)
  | fuel + 1, s =>
    match classify (cur s) with
    | .nul => ([], s)
    | .ws => tokLoop fuel (wsScan s.rem s.line s.col)
    | .alpha =>
      let r := identTok s
      let t := tokLoop fuel r.2
      (r.1 :: t.1, t.2)
    | .digit =>
      let r := numTok s
      let t := tokLoop fuel r.2
      (r.1 :: t.1, t.2)
    | .lbrace =>
      let t := tokLoop fuel (advance s)
      (⟨TokenType.LEFT_BRACE, "\x7b", s.line, s.col⟩ :: t.1, t.2)
    | .rbrace =>
      let t := tokLoop fuel (advance s)
      (⟨TokenType.RIGHT_BRACE, "\x7d", s.line, s.col⟩ :: t.1, t.2)
    | .lparen =>
      let t := tokLoop fuel (advance s)
      (⟨TokenType.LEFT_PAREN, "(", s.line, s.col⟩ :: t.1, t.2)
    | .rparen =>
      let t := tokLoop fuel (advance s)
      (⟨TokenType.RIGHT_PAREN, ")", s.line, s.col⟩ :: t.1, t.2)
    | .comma =>
      let t := tokLoop fuel (advance s)
      (⟨TokenType.COMMA, ",", s.line, s.col⟩ :: t.1, t.2)
    | .quote =>
      let r := strTok s
      let t := tokLoop fuel r.2
      (r.1 :: t.1, t.2)
    | .hash => tokLoop fuel (commentScan s.rem s.line s.col)
    | .newline =>
      -- the source has this case, but `isspace('\n')` holds, so the
      -- whitespace branch always fires first; kept to mirror lexer.cpp
      let t := tokLoop fuel (advance s)
      (⟨TokenType.EOL, "\n", s.line, s.col⟩ :: t.1, t.2)
    | .other =>
      let t := tokLoop fuel (advance s)
      (⟨TokenType.UNKNOWN, String.mk [cur s], s.line, s.col⟩ :: t.1, t.2)

/-- `Lexer::tokenize`: run the scanning loop from line 1, column 1, then
append the END_OF_FILE sentinel carrying the final position. -/
def tokenize (src : List Char) : List Token :=
  let r := tokLoop (src.length + 1) ⟨src, 1, 1⟩
  r.1 ++ [⟨TokenType.END_OF_FILE, "", r.2.line, r.2.col⟩]

/-! ## AST model (ast.h)

One inductive for all node variants, as in the C++ class hierarchy.
`NumberNode` stores the `std::stod` of the lexeme; doubles are modelled by
exact rationals, which agrees with `stod` on every lexeme the claims
exercise. -/

inductive BOp where
  | add | sub | mul | div | assign | eq | ne | gt | lt
  deriving DecidableEq, Repr

inductive TAst where
  | program (stmts : List TAst)
  | block (stmts : List TAst)
  | varDecl (name : String) (isConst : Bool) (init : TAst)
  | binop (op : BOp) (l r : TAst)
  | num (v : Rat)
  | str (s : String)
  | ident (name : String)
  | func (name : String) (params : List String) (body : TAst)
  | call (callee : String) (args : List TAst)
  | ifS (cond : TAst) (thenB : TAst) (elseB : Option TAst)
  | whileS (cond : TAst) (body : TAst)
  | printS (e : TAst)
  | ret (v : Option TAst)
  deriving Repr

/-- Valuation of the digit list of a numeric lexeme. -/
def digitsVal (l : List Char) : Nat :=
  l.foldl (fun a c => a * 10 + (c.toNat - ('0').toNat)) 0

/-- Model of `std::stod` on the lexemes `Lexer::number` produces: digits
optionally followed by a dot and more digits. -/
def stodM (s : String) : Rat :=
  match s.toList.splitOn '.' with
  | [i] => (digitsVal i : Rat)
  | [i, f] => (digitsVal i : Rat) + (digitsVal f : Rat) / ((10 : Rat) ^ f.length)
  | _ => 0

/-! ## Parser (parser.cpp)

The C++ parser is a set of mutually recursive member functions over a
token vector and a cursor, throwing `std::runtime_error` on failure.  We
embed the whole family as one fuel-driven function `parseGo` dispatching
on a request tag; loops inside a member function become tags carrying
their accumulator.  An error carries the cursor value at the throw site
(the C++ member `position` at the moment the exception unwinds). -/

structure PErr where
  msg : String
  pos : Nat
  deriving DecidableEq, Repr

/-- Diagnostic line printed by `parseProgram`'s catch block:
line and column of the current token plus the exception text. -/
structure Diag where
  line : Nat
  column : Nat
  msg : String
  deriving DecidableEq, Repr

/-- `Parser::currentToken` at an explicit cursor. -/
def curTk (ts : List Token) (p : Nat) : Token :=
  (ts.get? p).getD ⟨TokenType.END_OF_FILE, "", 0, 0⟩

inductive PReq where
  | stmt
  | blockD
  | blockLoop (acc : List TAst)
  | varDecl
  | funcDecl
  | paramsLoop (name : String) (acc : List String)
  | ifStmt
  | whileStmt
  | printStmt
  | expr
  | exprLoop (left : TAst)
  | term
  | termLoop (left : TAst)
  | factor
  | factorLoop (left : TAst)
  | primary
  | argsLoop (name : String) (acc : List TAst)

/-- One fuel-indexed function for all the `Parser::parseX` members.
A successful result is `(some node, cursor)`; only `parseStatement` can
produce `none` (its `return nullptr` at end of file).  Loop tags model the
`while` loops of the corresponding member bodies. -/
def parseGo : Nat → PReq → List Token → Nat → Except PErr (Option TAst × Nat)
  | 0, _, _, p => .error ⟨"model: out of fuel", p⟩
  | fuel + 1, q, ts, p =>
    match q with
    | .stmt =>
      -- skip empty lines
      if (curTk ts p).type = TokenType.EOL then parseGo fuel .stmt ts (p + 1)
      else if (curTk ts p).type = TokenType.END_OF_FILE then .ok (none, p)
      else
        match (curTk ts p).type with
        | TokenType.FUNCTION => parseGo fuel .funcDecl ts p
        | TokenType.VARIABLE => parseGo fuel .varDecl ts p
        | TokenType.CONSTANT => parseGo fuel .varDecl ts p
        | TokenType.IF => parseGo fuel .ifStmt ts p
        | TokenType.WHILE => parseGo fuel .whileStmt ts p
        | TokenType.PRINT => parseGo fuel .printStmt ts p
        | TokenType.RETURN => do
          let r ← parseGo fuel .expr ts (p + 1)
          match r with
          | (some e, p1) => .ok (some (.ret (some e)), p1)
          | (none, p1) => .error ⟨"model: expression returned nothing", p1⟩
        | TokenType.LEFT_BRACE => parseGo fuel .blockD ts p
        | _ => parseGo fuel .expr ts p
    | .blockD =>
      if (curTk ts p).type ≠ TokenType.LEFT_BRACE then
        .error ⟨"Expected '\x7b' at the beginning of a block", p⟩
      else parseGo fuel (.blockLoop []) ts (p + 1)
    | .blockLoop acc =>
      if (curTk ts p).type = TokenType.RIGHT_BRACE then
        .ok (some (.block acc), p + 1)
      else if (curTk ts p).type = TokenType.END_OF_FILE then
        .error ⟨"Expected '\x7d' at the end of a block", p⟩
      else do
        let r ← parseGo fuel .stmt ts p
        match r with
        | (some a, p1) => parseGo fuel (.blockLoop (acc ++ [a])) ts p1
        | (none, p1) => parseGo fuel (.blockLoop acc) ts p1
    | .varDecl =>
      let isConst := (curTk ts p).type = TokenType.CONSTANT
      let p1 := p + 1
      if (curTk ts p1).type ≠ TokenType.IDENTIFIER then
        .error ⟨"Expected identifier after 'var' or 'const'", p1⟩
      else
        let name := (curTk ts p1).value
        let p2 := p1 + 1
        if (curTk ts p2).type ≠ TokenType.ASSIGN then
          .error ⟨"Expected 'is' after variable name", p2⟩
        else do
          let r ← parseGo fuel .expr ts (p2 + 1)
          match r with
          | (some e, p3) => .ok (some (.varDecl name isConst e), p3)
          | (none, p3) => .error ⟨"model: expression returned nothing", p3⟩
    | .funcDecl =>
      let p1 := p + 1
      if (curTk ts p1).type = TokenType.IDENTIFIER then
        let name := (curTk ts p1).value
        let p2 := p1 + 1
        if (curTk ts p2).type ≠ TokenType.LEFT_PAREN then
          .error ⟨"Expected '(' after function name", p2⟩
        else
          let p3 := p2 + 1
          if (curTk ts p3).type ≠ TokenType.RIGHT_PAREN then
            if (curTk ts p3).type ≠ TokenType.IDENTIFIER then
              .error ⟨"Expected parameter name", p3⟩
            else
              parseGo fuel (.paramsLoop name [(curTk ts p3).value]) ts (p3 + 1)
          else parseGo fuel (.paramsLoop name []) ts p3
      else .error ⟨"Expected function name", p1⟩
    | .paramsLoop name acc =>
      if (curTk ts p).type = TokenType.COMMA then
        if (curTk ts (p + 1)).type ≠ TokenType.IDENTIFIER then
          .error ⟨"Expected parameter name after comma", p + 1⟩
        else parseGo fuel (.paramsLoop name (acc ++ [(curTk ts (p + 1)).value])) ts (p + 2)
      else if (curTk ts p).type ≠ TokenType.RIGHT_PAREN then
        .error ⟨"Expected ')' after parameters", p⟩
      else do
        let r ← parseGo fuel .blockD ts (p + 1)
        match r with
        | (some b, p1) => .ok (some (.func name acc b), p1)
        | (none, p1) => .error ⟨"Expected function body", p1⟩
    | .ifStmt => do
      let r ← parseGo fuel .expr ts (p + 1)
      match r with
      | (none, p1) => .error ⟨"model: expression returned nothing", p1⟩
      | (some cond, p1) => do
        let rt ← parseGo fuel .blockD ts p1
        match rt with
        | (none, p2) => .error ⟨"Expected block after if condition", p2⟩
        | (some thenB, p2) =>
          if (curTk ts p2).type = TokenType.ELSE then do
            let re ← parseGo fuel .blockD ts (p2 + 1)
            match re with
            | (none, p3) => .error ⟨"Expected block after else", p3⟩
            | (some elseB, p3) => .ok (some (.ifS cond thenB (some elseB)), p3)
          else .ok (some (.ifS cond thenB none), p2)
    | .whileStmt => do
      let r ← parseGo fuel .expr ts (p + 1)
      match r with
      | (none, p1) => .error ⟨"model: expression returned nothing", p1⟩
      | (some cond, p1) => do
        let rb ← parseGo fuel .blockD ts p1
        match rb with
        | (none, p2) => .error ⟨"Expected block after while condition", p2⟩
        | (some body, p2) => .ok (some (.whileS cond body), p2)
    | .printStmt => do
      let r ← parseGo fuel .expr ts (p + 1)
      match r with
      | (none, p1) => .error ⟨"model: expression returned nothing", p1⟩
      | (some e, p1) => .ok (some (.printS e), p1)
    | .expr => do
      let r ← parseGo fuel .term ts p
      match r with
      | (none, p1) => .error ⟨"model: expression returned nothing", p1⟩
      | (some left, p1) => parseGo fuel (.exprLoop left) ts p1
    | .exprLoop left =>
      let op? : Option BOp :=
        match (curTk ts p).type with
        | TokenType.ASSIGN => some .assign
        | TokenType.EQUALS => some .eq
        | TokenType.NOT_EQUALS => some .ne
        | TokenType.GREATER => some .gt
        | TokenType.LESS => some .lt
        | _ => none
      match op? with
      | none => .ok (some left, p)
      | some op =>
        -- consume the glue word after "greater"/"less"
        let p1 := p + 1
        let p2 :=
          if (op = .gt || op = .lt) &&
             (curTk ts p1).type = TokenType.IDENTIFIER && (curTk ts p1).value = "than"
          then p1 + 1 else p1
        do
          let r ← parseGo fuel .term ts p2
          match r with
          | (none, p3) => .error ⟨"model: expression returned nothing", p3⟩
          | (some right, p3) => parseGo fuel (.exprLoop (.binop op left right)) ts p3
    | .term => do
      let r ← parseGo fuel .factor ts p
      match r with
      | (none, p1) => .error ⟨"model: expression returned nothing", p1⟩
      | (some left, p1) => parseGo fuel (.termLoop left) ts p1
    | .termLoop left =>
      let op? : Option BOp :=
        match (curTk ts p).type with
        | TokenType.PLUS => some .add
        | TokenType.MINUS => some .sub
        | _ => none
      match op? with
      | none => .ok (some left, p)
      | some op => do
        let r ← parseGo fuel .factor ts (p + 1)
        match r with
        | (none, p1) => .error ⟨"model: expression returned nothing", p1⟩
        | (some right, p1) => parseGo fuel (.termLoop (.binop op left right)) ts p1
    | .factor => do
      let r ← parseGo fuel .primary ts p
      match r with
      | (none, p1) => .error ⟨"model: expression returned nothing", p1⟩
      | (some left, p1) => parseGo fuel (.factorLoop left) ts p1
    | .factorLoop left =>
      let op? : Option BOp :=
        match (curTk ts p).type with
        | TokenType.MULTIPLY => some .mul
        | TokenType.DIVIDE => some .div
        | _ => none
      match op? with
      | none => .ok (some left, p)
      | some op =>
        -- consume the glue word after "divided"
        let p1 := p + 1
        let p2 :=
          if op = .div && (curTk ts p1).type = TokenType.IDENTIFIER &&
             (curTk ts p1).value = "by"
          then p1 + 1 else p1
        do
          let r ← parseGo fuel .primary ts p2
          match r with
          | (none, p3) => .error ⟨"model: expression returned nothing", p3⟩
          | (some right, p3) => parseGo fuel (.factorLoop (.binop op left right)) ts p3
    | .primary =>
      match (curTk ts p).type with
      | TokenType.NUMBER => .ok (some (.num (stodM (curTk ts p).value)), p + 1)
      | TokenType.STRING => .ok (some (.str (curTk ts p).value), p + 1)
      | TokenType.IDENTIFIER =>
        let name := (curTk ts p).value
        let p1 := p + 1
        if (curTk ts p1).type = TokenType.LEFT_PAREN then
          let p2 := p1 + 1
          if (curTk ts p2).type ≠ TokenType.RIGHT_PAREN then do
            let r ← parseGo fuel .expr ts p2
            match r with
            | (none, p3) => .error ⟨"model: expression returned nothing", p3⟩
            | (some a, p3) => parseGo fuel (.argsLoop name [a]) ts p3
          else .ok (some (.call name []), p2 + 1)
        else .ok (some (.ident name), p1)
      | TokenType.LEFT_PAREN => do
        let r ← parseGo fuel .expr ts (p + 1)
        match r with
        | (none, p1) => .error ⟨"model: expression returned nothing", p1⟩
        | (some e, p1) =>
          if (curTk ts p1).type ≠ TokenType.RIGHT_PAREN then
            .error ⟨"Expected ')'", p1⟩
          else .ok (some e, p1 + 1)
      | _ => .error ⟨"Unexpected token: " ++ (curTk ts p).value, p⟩
    | .argsLoop name acc =>
      if (curTk ts p).type = TokenType.COMMA then do
        let r ← parseGo fuel .expr ts (p + 1)
        match r with
        | (none, p1) => .error ⟨"model: expression returned nothing", p1⟩
        | (some a, p1) => parseGo fuel (.argsLoop name (acc ++ [a])) ts p1
      else if (curTk ts p).type ≠ TokenType.RIGHT_PAREN then
        .error ⟨"Expected ')' after function arguments", p⟩
      else .ok (some (.call name acc), p + 1)

/-- Error recovery scan of `Parser::parseProgram`'s catch block: advance
from the throw position until the next EOL or END_OF_FILE token. -/
def recoverGo (ts : List Token) : Nat → Nat → Nat
  | 0, p => p
  | k + 1, p =>
    if (curTk ts p).type = TokenType.EOL ∨ (curTk ts p).type = TokenType.END_OF_FILE
    then p
    else recoverGo ts k (p + 1)

/-- The `while (currentToken().type != TokenType::END_OF_FILE)` loop of
`Parser::parseProgram`, with the try/catch recovery.  Diagnostics carry the
line and column of the token current at the throw site. -/
def parseProgramGo (innerFuel : Nat) (ts : List Token) :
    Nat → Nat → List TAst → List Diag → List TAst × List Diag
  | 0, _, stmts, diags => (stmts, diags)
  | fuel + 1, p, stmts, diags =>
    if (curTk ts p).type = TokenType.END_OF_FILE then (stmts, diags)
    else
      match parseGo innerFuel .stmt ts p with
      | .ok (some a, p1) => parseProgramGo innerFuel ts fuel p1 (stmts ++ [a]) diags
      | .ok (none, p1) => parseProgramGo innerFuel ts fuel p1 stmts diags
      | .error e =>
        let t := curTk ts e.pos
        let q := recoverGo ts (ts.length + 1) e.pos
        let q1 := if (curTk ts q).type = TokenType.EOL then q + 1 else q
        parseProgramGo innerFuel ts fuel q1 stmts (diags ++ [⟨t.line, t.column, e.msg⟩])

/-- `Parser::parse`: the Program root plus the emitted diagnostics. -/
def parseTokens (ts : List Token) : List TAst × List Diag :=
  parseProgramGo (ts.length * 20 + 20) ts (ts.length + 4) 0 [] []

/-! ## Code generator (codegen.cpp)

The generator is embedded as a state machine over an abstract SSA-style
module: instructions are recorded in emission order tagged with the basic
block that holds them (the entry-block `alloca`s of `VarDecl` are
front-inserted by a temporary builder in the source; the tag records their
block, which is all the claims use).  `IRBuilder` constant folding on
`ConstantFP` operands is modelled over exact rationals.  Undefined
behaviour the C++ would hit — using the builder with no insertion point,
or calling `getType()`/`getParent()` through a null pointer — is modelled
as an explicit `Except` error, since the process dies there. -/

inductive LType where
  | dbl | i1 | ptr
  deriving DecidableEq, Repr

inductive LValue where
  | cfp (v : Rat)
  | cbool (b : Bool)
  | reg (id : Nat) (ty : LType)
  | gstr (id : Nat)
  | argv (fid : Nat) (i : Nat)
  deriving DecidableEq, Repr

def typeOfV : LValue → LType
  | .cfp _ => .dbl
  | .cbool _ => .i1
  | .reg _ ty => ty
  | .gstr _ => .ptr
  | .argv _ _ => .dbl

inductive AOp where
  | fadd | fsub | fmul | fdiv
  deriving DecidableEq, Repr

inductive FPred where
  | oeq | one | ogt | olt
  deriving DecidableEq, Repr

inductive Instr where
  | alloca (dest : Nat) (name : String)
  | store (v : Option LValue) (slot : LValue)
  | load (dest : Nat) (slot : LValue)
  | arith (k : AOp) (dest : Nat) (a b : LValue)
  | fcmp (pred : FPred) (dest : Nat) (a b : LValue)
  | callI (dest : Nat) (callee : String) (args : List (Option LValue))
  | condbr (c : LValue) (tB fB : Nat)
  | br (b : Nat)
  | retI (v : Option LValue)
  deriving DecidableEq, Repr

def isTerm : Instr → Bool
  | .condbr _ _ _ => true
  | .br _ => true
  | .retI _ => true
  | _ => false

structure FuncInfo where
  name : String
  fid : Nat
  arity : Nat
  deriving DecidableEq, Repr

structure CGState where
  insertBlk : Option Nat
  instrs : List (Nat × Instr)
  nextReg : Nat
  nextBlk : Nat
  nextStr : Nat
  nextFunc : Nat
  blockParent : List (Nat × Nat)
  funcEntry : List (Nat × Nat)
  funcs : List FuncInfo
  namedValues : List (String × LValue)
  currentValue : Option LValue
  argAcc : List (Option LValue)
  deriving DecidableEq, Repr

inductive CGErr where
  | fuelOut
  | nullInsert
  | nullValue
  | lookupFail
  deriving DecidableEq, Repr

/-- Constructor state: fresh module with the two extern print functions
declared and no builder insertion point. -/
def initCG : CGState :=
  { insertBlk := none, instrs := [], nextReg := 0, nextBlk := 0, nextStr := 0,
    nextFunc := 2,
    blockParent := [], funcEntry := [],
    funcs := [⟨"printDouble", 0, 1⟩, ⟨"printString", 1, 1⟩],
    namedValues := [], currentValue := none, argAcc := [] }

/-- Insertion through the builder.  With no insertion point the C++
`IRBuilder::Insert` dereferences a null `BasicBlock*`. -/
def emitI (i : Instr) (s : CGState) : Except CGErr CGState :=
  match s.insertBlk with
  | none => .error .nullInsert
  | some b => .ok { s with instrs := s.instrs ++ [(b, i)] }

def foldA (k : AOp) (x y : Rat) : Rat :=
  match k with
  | .fadd => x + y
  | .fsub => x - y
  | .fmul => x * y
  | .fdiv => x / y

def foldC (p : FPred) (x y : Rat) : Bool :=
  match p with
  | .oeq => x = y
  | .one => x ≠ y
  | .ogt => x > y
  | .olt => x < y

/-- The `ConstantFP` view of a value, deciding whether the builder's
constant folder applies. -/
def asCfp : LValue → Option Rat
  | .cfp x => some x
  | _ => none

/-- `IRBuilder::CreateFAdd` and friends, with the builder's constant
folding on two `ConstantFP` operands. -/
def createArith (k : AOp) (a b : LValue) (s : CGState) :
    Except CGErr (LValue × CGState) :=
  match asCfp a, asCfp b with
  | some x, some y => .ok (.cfp (foldA k x y), s)
  | _, _ => do
    let d := s.nextReg
    let s1 ← emitI (.arith k d a b) { s with nextReg := d + 1 }
    .ok (.reg d .dbl, s1)

/-- `IRBuilder::CreateFCmpXX`, folding on two `ConstantFP` operands. -/
def createFCmp (p : FPred) (a b : LValue) (s : CGState) :
    Except CGErr (LValue × CGState) :=
  match asCfp a, asCfp b with
  | some x, some y => .ok (.cbool (foldC p x y), s)
  | _, _ => do
    let d := s.nextReg
    let s1 ← emitI (.fcmp p d a b) { s with nextReg := d + 1 }
    .ok (.reg d .i1, s1)

def createLoad (slot : LValue) (s : CGState) : Except CGErr (LValue × CGState) := do
  let d := s.nextReg
  let s1 ← emitI (.load d slot) { s with nextReg := d + 1 }
  .ok (.reg d .dbl, s1)

/-- BasicBlock creation; `parent?` is the function passed to
`BasicBlock::Create`, absent for the blocks inserted into the function
later by `insertInto`. -/
def newBlock (parent? : Option Nat) (s : CGState) : Nat × CGState :=
  let b := s.nextBlk
  (b, { s with
          nextBlk := b + 1,
          blockParent :=
            match parent? with
            | none => s.blockParent
            | some f => s.blockParent ++ [(b, f)] })

def insertBlockInto (b fid : Nat) (s : CGState) : CGState :=
  { s with blockParent := s.blockParent ++ [(b, fid)] }

def setInsert (b : Nat) (s : CGState) : CGState :=
  { s with insertBlk := some b }

/-- Last instruction currently in block `b`; `BasicBlock::getTerminator`
answers whether it is a terminator. -/
def lastInstrIn (b : Nat) (s : CGState) : Option Instr :=
  ((s.instrs.filter (fun pi => pi.1 = b)).getLast?).map (fun pi => pi.2)

def hasTerminator (b : Nat) (s : CGState) : Bool :=
  match lastInstrIn b s with
  | some i => isTerm i
  | none => false

/-- Check-and-branch used after filling a block: if the current insertion
block has no terminator, emit an unconditional branch to `target`. -/
def brIfOpen (target : Nat) (s : CGState) : Except CGErr CGState :=
  match s.insertBlk with
  | none => .error .nullInsert
  | some b => if hasTerminator b s then .ok s else emitI (.br target) s

/-- Condition coercion, duplicated verbatim in `visit(IfNode&)` and
`visit(WhileNode&)`: a value that is already a 1-bit boolean is used
unchanged; any other value is wrapped as `CreateFCmpONE(value, 0.0)`. -/
def condCoerce (r : LValue) (s : CGState) : Except CGErr (LValue × CGState) :=
  if typeOfV r = .i1 then .ok (r, s) else createFCmp .one r (.cfp 0) s

/-- End-of-function check of `visit(FunctionNode&)`: if the final
insertion block has no terminator, emit `return 0.0`. -/
def retIfOpen (s : CGState) : Except CGErr CGState :=
  match s.insertBlk with
  | none => .error .nullInsert
  | some b => if hasTerminator b s then .ok s else emitI (.retI (some (.cfp 0))) s

/-- Parameter setup of `CodeGenerator::visit(FunctionNode&)`: for each
argument an entry-block alloca, a store of the argument value, and a
symbol-table binding. -/
def paramSetup (fid : Nat) : Nat → List String → CGState → Except CGErr CGState
  | _, [], s => .ok s
  | i, pn :: rest, s => do
    let d := s.nextReg
    let s1 ← emitI (.alloca d pn) { s with nextReg := d + 1 }
    let s2 ← emitI (.store (some (.argv fid i)) (.reg d .ptr)) s1
    paramSetup fid (i + 1) rest
      { s2 with namedValues := (pn, .reg d .ptr) :: s2.namedValues }

inductive VReq where
  | one (a : TAst)
  | seq (l : List TAst)
  | args (l : List TAst)

/-- The visitor of codegen.cpp as one fuel-indexed function.  `.one`
visits a node, `.seq` a statement list (Program/Block bodies), and `.args`
evaluates call arguments appending each resulting `currentValue` to
`argAcc` (the local `argsV` vector of `visit(CallNode&)`). -/
def visit : Nat → VReq → CGState → Except CGErr CGState
  | 0, _, _ => .error .fuelOut
  | fuel + 1, q, s =>
    match q with
    | .seq [] => .ok s
    | .seq (a :: rest) => do
      let s1 ← visit fuel (.one a) s
      visit fuel (.seq rest) s1
    | .args [] => .ok s
    | .args (a :: rest) => do
      let s1 ← visit fuel (.one a) s
      visit fuel (.args rest) { s1 with argAcc := s1.argAcc ++ [s1.currentValue] }
    | .one ast =>
      match ast with
      | .program stmts => visit fuel (.seq stmts) s
      | .block stmts => visit fuel (.seq stmts) s
      | .num v => .ok { s with currentValue := some (.cfp v) }
      | .str _ =>
        .ok { s with currentValue := some (.gstr s.nextStr), nextStr := s.nextStr + 1 }
      | .ident n =>
        match List.lookup n s.namedValues with
        | none => .ok { s with currentValue := none }  -- cerr: Unknown variable
        | some slot => do
          let r ← createLoad slot s
          .ok { r.2 with currentValue := some r.1 }
      | .varDecl n _ init => do
        let s1 ← visit fuel (.one init) s
        let initV := s1.currentValue
        -- builder->GetInsertBlock()->getParent(): with no insertion point
        -- (top level) this dereferences a null block pointer
        match s1.insertBlk with
        | none => .error .nullInsert
        | some b =>
          match List.lookup b s1.blockParent with
          | none => .error .nullInsert  -- getParent() null, then dereferenced
          | some fid =>
            match List.lookup fid s1.funcEntry with
            | none => .error .lookupFail  -- unreachable: functions get entry blocks
            | some entry =>
              let d := s1.nextReg
              let s2 := { s1 with nextReg := d + 1,
                                  instrs := s1.instrs ++ [(entry, .alloca d n)] }
              let s3 ← emitI (.store initV (.reg d .ptr)) s2
              .ok { s3 with namedValues := (n, .reg d .ptr) :: s3.namedValues }
      | .binop op l r => do
        let s1 ← visit fuel (.one l) s
        let lv := s1.currentValue
        let s2 ← visit fuel (.one r) s1
        let rv := s2.currentValue
        match lv, rv with
        | some a, some b =>
          match op with
          | .add => do
            let r2 ← createArith .fadd a b s2
            .ok { r2.2 with currentValue := some r2.1 }
          | .sub => do
            let r2 ← createArith .fsub a b s2
            .ok { r2.2 with currentValue := some r2.1 }
          | .mul => do
            let r2 ← createArith .fmul a b s2
            .ok { r2.2 with currentValue := some r2.1 }
          | .div => do
            let r2 ← createArith .fdiv a b s2
            .ok { r2.2 with currentValue := some r2.1 }
          | .assign =>
            -- dynamic_cast<IdentifierNode*> on the left child
            match l with
            | .ident n =>
              match List.lookup n s2.namedValues with
              | none => .ok { s2 with currentValue := none }  -- Unknown variable
              | some slot => do
                let s3 ← emitI (.store (some b) slot) s2
                .ok { s3 with currentValue := some b }
            | _ => .ok { s2 with currentValue := none }  -- non-identifier left side
          | .eq => do
            let r2 ← createFCmp .oeq a b s2
            .ok { r2.2 with currentValue := some r2.1 }
          | .ne => do
            let r2 ← createFCmp .one a b s2
            .ok { r2.2 with currentValue := some r2.1 }
          | .gt => do
            let r2 ← createFCmp .ogt a b s2
            .ok { r2.2 with currentValue := some r2.1 }
          | .lt => do
            let r2 ← createFCmp .olt a b s2
            .ok { r2.2 with currentValue := some r2.1 }
        | _, _ => .ok { s2 with currentValue := none }  -- if (!left || !right)
      | .func name ps body =>
        let fid := s.nextFunc
        let s1 := { s with nextFunc := fid + 1,
                           funcs := s.funcs ++ [⟨name, fid, ps.length⟩] }
        let eb := newBlock (some fid) s1
        let s2 := { eb.2 with funcEntry := eb.2.funcEntry ++ [(fid, eb.1)] }
        let s3 := setInsert eb.1 s2
        let saved := s3.namedValues
        let s4 := { s3 with namedValues := [] }
        do
          let s5 ← paramSetup fid 0 ps s4
          let s6 ← visit fuel (.one body) s5
          let s7 ← retIfOpen s6
          .ok { s7 with namedValues := saved }
      | .call cname args =>
        match s.funcs.find? (fun fi => fi.name = cname) with
        | none => .ok { s with currentValue := none }  -- Unknown function
        | some fi =>
          if fi.arity ≠ args.length then
            .ok { s with currentValue := none }  -- Incorrect number of arguments
          else do
            let s1 ← visit fuel (.args args) { s with argAcc := [] }
            let d := s1.nextReg
            let s2 ← emitI (.callI d cname s1.argAcc) { s1 with nextReg := d + 1 }
            .ok { s2 with currentValue := some (.reg d .dbl) }
      | .ifS cond tb eb => do
        let s1 ← visit fuel (.one cond) s
        match s1.currentValue with
        | none => .error .nullValue  -- condValue->getType() on null
        | some r => do
          let vc ← condCoerce r s1
          match vc.2.insertBlk with
          | none => .error .nullInsert  -- GetInsertBlock()->getParent()
          | some cb =>
            match List.lookup cb vc.2.blockParent with
            | none => .error .nullInsert
            | some fid => do
              let tB := newBlock (some fid) vc.2
              let eB := newBlock none tB.2
              let mB := newBlock none eB.2
              let s6 ← emitI (.condbr vc.1 tB.1 eB.1) mB.2
              let s7 := setInsert tB.1 s6
              let s8 ← visit fuel (.one tb) s7
              let s9 ← brIfOpen mB.1 s8
              let s10 := setInsert eB.1 (insertBlockInto eB.1 fid s9)
              let s11 ← (match eb with
                         | none => .ok s10
                         | some e => visit fuel (.one e) s10)
              let s12 ← brIfOpen mB.1 s11
              .ok (setInsert mB.1 (insertBlockInto mB.1 fid s12))
      | .whileS cond body =>
        -- function = builder->GetInsertBlock()->getParent() comes first here
        match s.insertBlk with
        | none => .error .nullInsert
        | some cb =>
          match List.lookup cb s.blockParent with
          | none => .error .nullInsert
          | some fid => do
            let cB := newBlock (some fid) s
            let lB := newBlock none cB.2
            let aB := newBlock none lB.2
            let s4 ← emitI (.br cB.1) aB.2
            let s5 := setInsert cB.1 s4
            let s6 ← visit fuel (.one cond) s5
            match s6.currentValue with
            | none => .error .nullValue
            | some r => do
              let vc ← condCoerce r s6
              let s8 ← emitI (.condbr vc.1 lB.1 aB.1) vc.2
              let s9 := setInsert lB.1 (insertBlockInto lB.1 fid s8)
              let s10 ← visit fuel (.one body) s9
              let s11 ← brIfOpen cB.1 s10
              .ok (setInsert aB.1 (insertBlockInto aB.1 fid s11))
      | .printS e => do
        let s1 ← visit fuel (.one e) s
        match s1.currentValue with
        | none => .error .nullValue  -- currentValue->getType() on null
        | some v =>
          let callee := if typeOfV v = .ptr then "printString" else "printDouble"
          let d := s1.nextReg
          emitI (.callI d callee [some v]) { s1 with nextReg := d + 1 }
      | .ret val =>
        match val with
        | some e => do
          let s1 ← visit fuel (.one e) s
          emitI (.retI s1.currentValue) s1
        | none => emitI (.retI (some (.cfp 0))) s

/-- Lex, parse, and run the code generator over the Program root, as the
driver does for a source file.  The AST has at most one node per source
byte, and each node costs a bounded number of fuel units, so the fuel
below dominates every actual run on the inputs under study (the concrete
theorems evaluate the result, which exposes any exhaustion as `fuelOut`). -/
def compileSrc (src : List Char) : Except CGErr CGState :=
  let prog := TAst.program (parseTokens (tokenize src)).1
  visit ((src.length + 2) * 8) (.one prog) initCG

/-- Lexicographic order on token positions, the relation of the
position-monotonicity property. -/
def posLE (a b : Token) : Prop :=
  a.line < b.line ∨ (a.line = b.line ∧ a.column ≤ b.column)

instance (a b : Token) : Decidable (posLE a b) :=
  inferInstanceAs (Decidable (_ ∨ _))

/-- Sample generator state positioned inside a freshly created function's
entry block, as `visit(FunctionNode&)` establishes it before lowering the
body; used to instantiate the universal theorems. -/
def sampleEntryState : CGState :=
  { insertBlk := some 0, instrs := [], nextReg := 0, nextBlk := 1, nextStr := 0,
    nextFunc := 3, blockParent := [(0, 2)], funcEntry := [(2, 0)],
    funcs := [⟨"printDouble", 0, 1⟩, ⟨"printString", 1, 1⟩, ⟨"f", 2, 0⟩],
    namedValues := [], currentValue := none, argAcc := [] }

/-! ## Helper lemmas about the lexer loop -/

theorem advStep_line_le (rest : List Char) (line col : Nat) :
    line ≤ (advStep rest line col).1 := by
  cases rest with
  | nil => exact le_refl _
  | cons d _ =>
    simp only [advStep]
    split <;> simp

theorem wsScan_line_le (l : List Char) : ∀ line col, line ≤ (wsScan l line col).line := by
  induction l with
  | nil => intro line col; exact le_refl _
  | cons ch rest ih =>
    intro line col
    simp only [wsScan]
    split
    · exact le_trans (advStep_line_le rest line col) (ih _ _)
    · exact le_refl _

theorem commentScan_line_le (l : List Char) :
    ∀ line col, line ≤ (commentScan l line col).line := by
  induction l with
  | nil => intro line col; exact le_refl _
  | cons ch rest ih =>
    intro line col
    simp only [commentScan]
    split
    · exact le_trans (advStep_line_le rest line col) (ih _ _)
    · exact le_refl _

theorem identScan_line_le (l : List Char) :
    ∀ line col acc, line ≤ (identScan l line col acc).2.line := by
  induction l with
  | nil => intro line col acc; exact le_refl _
  | cons ch rest ih =>
    intro line col acc
    simp only [identScan]
    split
    · exact le_trans (advStep_line_le rest line col) (ih _ _ _)
    · exact le_refl _

theorem digitScan_line_le (l : List Char) :
    ∀ line col acc, line ≤ (digitScan l line col acc).2.line := by
  induction l with
  | nil => intro line col acc; exact le_refl _
  | cons ch rest ih =>
    intro line col acc
    simp only [digitScan]
    split
    · exact le_trans (advStep_line_le rest line col) (ih _ _ _)
    · exact le_refl _

theorem strScan_line_le (l : List Char) :
    ∀ line col acc, line ≤ (strScan l line col acc).2.line := by
  induction l with
  | nil => intro line col acc; exact le_refl _
  | cons ch rest ih =>
    intro line col acc
    simp only [strScan]
    split
    · exact le_trans (advStep_line_le rest line col) (ih _ _ _)
    · exact le_refl _

theorem advance_line_le (s : LexState) : s.line ≤ (advance s).line := by
  cases s with
  | mk rem line col =>
    cases rem with
    | nil => exact le_refl _
    | cons c rest => exact advStep_line_le rest line col

theorem identTok_line_eq (s : LexState) : (identTok s).1.line = (identTok s).2.line := rfl

theorem identTok_line_le (s : LexState) : s.line ≤ (identTok s).2.line :=
  identScan_line_le _ _ _ _

theorem numTok_line_eq (s : LexState) : (numTok s).1.line = (numTok s).2.line := by
  simp only [numTok]
  split <;> rfl

theorem numTok_line_le (s : LexState) : s.line ≤ (numTok s).2.line := by
  simp only [numTok]
  split
  · exact le_trans (digitScan_line_le _ _ _ _)
      (le_trans (advance_line_le _) (digitScan_line_le _ _ _ _))
  · exact digitScan_line_le _ _ _ _

theorem strTok_line_eq (s : LexState) : (strTok s).1.line = (strTok s).2.line := rfl

theorem strTok_line_le (s : LexState) : s.line ≤ (strTok s).2.line := by
  simp only [strTok]
  split
  · exact le_trans (advance_line_le _)
      (le_trans (strScan_line_le _ _ _ _) (advance_line_le _))
  · exact le_trans (advance_line_le _) (strScan_line_le _ _ _ _)

theorem keywordOf_getD_ne_eol (s : String) :
    ((keywordOf s).getD TokenType.IDENTIFIER) ≠ TokenType.EOL := by
  unfold keywordOf
  simp only [List.lookup]
  repeat' split <;> simp_all

/-- The newline case of the lexer switch is dead: `isspace('\n')` holds,
so the whitespace branch above it always fires first. -/
theorem classify_ne_newline (c : Char) : classify c ≠ CharClass.newline := by
  intro h
  unfold classify at h
  by_cases h1 : c = nulC
  · rw [if_pos h1] at h; exact CharClass.noConfusion h
  rw [if_neg h1] at h
  by_cases h2 : isspaceC c = true
  · rw [if_pos h2] at h; exact CharClass.noConfusion h
  rw [if_neg h2] at h
  by_cases h3 : (isalphaC c || c = '_') = true
  · rw [if_pos h3] at h; exact CharClass.noConfusion h
  rw [if_neg h3] at h
  by_cases h4 : isdigitC c = true
  · rw [if_pos h4] at h; exact CharClass.noConfusion h
  rw [if_neg h4] at h
  by_cases h5 : c = '\x7b'
  · rw [if_pos h5] at h; exact CharClass.noConfusion h
  rw [if_neg h5] at h
  by_cases h6 : c = '\x7d'
  · rw [if_pos h6] at h; exact CharClass.noConfusion h
  rw [if_neg h6] at h
  by_cases h7 : c = '('
  · rw [if_pos h7] at h; exact CharClass.noConfusion h
  rw [if_neg h7] at h
  by_cases h8 : c = ')'
  · rw [if_pos h8] at h; exact CharClass.noConfusion h
  rw [if_neg h8] at h
  by_cases h9 : c = ','
  · rw [if_pos h9] at h; exact CharClass.noConfusion h
  rw [if_neg h9] at h
  by_cases h10 : c = '"'
  · rw [if_pos h10] at h; exact CharClass.noConfusion h
  rw [if_neg h10] at h
  by_cases h11 : c = '#'
  · rw [if_pos h11] at h; exact CharClass.noConfusion h
  rw [if_neg h11] at h
  by_cases h12 : c = '\n'
  · subst h12
    exact h2 (by decide)
  rw [if_neg h12] at h
  exact CharClass.noConfusion h

/-- Bundled invariant transfer for a loop iteration that emits one token
and continues from a state whose line is `stline`. -/
theorem inv_cons (sline : Nat) (tok : Token) (stline : Nat) (rest : List Token)
    (finline : Nat)
    (hc : List.Chain' (fun a b => a.line ≤ b.line) rest)
    (hb : ∀ t ∈ rest, stline ≤ t.line ∧ t.line ≤ finline ∧ t.type ≠ TokenType.EOL)
    (hf : stline ≤ finline)
    (h1 : sline ≤ tok.line) (h2 : tok.line ≤ stline) (h3 : tok.type ≠ TokenType.EOL) :
    List.Chain' (fun a b => a.line ≤ b.line) (tok :: rest) ∧
    (∀ t ∈ tok :: rest, sline ≤ t.line ∧ t.line ≤ finline ∧ t.type ≠ TokenType.EOL) ∧
    sline ≤ finline := by
  refine ⟨List.chain'_cons'.mpr ⟨?_, hc⟩, ?_, le_trans (le_trans h1 h2) hf⟩
  · intro y hy
    exact le_trans h2 (hb y (List.mem_of_mem_head? hy)).1
  · intro t ht
    rcases List.mem_cons.mp ht with rfl | ht'
    · exact ⟨h1, le_trans h2 hf, h3⟩
    · obtain ⟨b1, b2, b3⟩ := hb t ht'
      exact ⟨le_trans (le_trans h1 h2) b1, b2, b3⟩

/-- Invariant of the scanning loop: the emitted token lines form a
non-decreasing chain, every token line lies between the entry line and the
final line, and no emitted token is an EOL. -/
theorem tokLoop_inv (fuel : Nat) : ∀ (s : LexState),
    List.Chain' (fun a b => a.line ≤ b.line) (tokLoop fuel s).1 ∧
    (∀ t ∈ (tokLoop fuel s).1,
        s.line ≤ t.line ∧ t.line ≤ (tokLoop fuel s).2.line ∧ t.type ≠ TokenType.EOL) ∧
    s.line ≤ (tokLoop fuel s).2.line := by
  induction fuel with
  | zero => intro s; simp [tokLoop]
  | succ f ih =>
    intro s
    rcases hcl : classify (cur s) with _ | _ | _ | _ | _ | _ | _ | _ | _ | _ | _ | _ | _
    case nul => simp [tokLoop, hcl]
    case ws =>
      simp only [tokLoop, hcl]
      obtain ⟨a, b, c⟩ := ih (wsScan s.rem s.line s.col)
      exact ⟨a, fun t ht =>
        ⟨le_trans (wsScan_line_le _ _ _) (b t ht).1, (b t ht).2.1, (b t ht).2.2⟩,
        le_trans (wsScan_line_le _ _ _) c⟩
    case alpha =>
      simp only [tokLoop, hcl]
      obtain ⟨a, b, c⟩ := ih (identTok s).2
      exact inv_cons s.line (identTok s).1 (identTok s).2.line _ _ a b c
        (by rw [identTok_line_eq]; exact identTok_line_le s)
        (le_of_eq (identTok_line_eq s)) (keywordOf_getD_ne_eol _)
    case digit =>
      simp only [tokLoop, hcl]
      obtain ⟨a, b, c⟩ := ih (numTok s).2
      exact inv_cons s.line (numTok s).1 (numTok s).2.line _ _ a b c
        (by rw [numTok_line_eq]; exact numTok_line_le s)
        (le_of_eq (numTok_line_eq s)) (by simp only [numTok]; split <;> simp)
    case lbrace =>
      simp only [tokLoop, hcl]
      obtain ⟨a, b, c⟩ := ih (advance s)
      exact inv_cons s.line _ (advance s).line _ _ a b c (le_refl _)
        (advance_line_le s) (by simp)
    case rbrace =>
      simp only [tokLoop, hcl]
      obtain ⟨a, b, c⟩ := ih (advance s)
      exact inv_cons s.line _ (advance s).line _ _ a b c (le_refl _)
        (advance_line_le s) (by simp)
    case lparen =>
      simp only [tokLoop, hcl]
      obtain ⟨a, b, c⟩ := ih (advance s)
      exact inv_cons s.line _ (advance s).line _ _ a b c (le_refl _)
        (advance_line_le s) (by simp)
    case rparen =>
      simp only [tokLoop, hcl]
      obtain ⟨a, b, c⟩ := ih (advance s)
      exact inv_cons s.line _ (advance s).line _ _ a b c (le_refl _)
        (advance_line_le s) (by simp)
    case comma =>
      simp only [tokLoop, hcl]
      obtain ⟨a, b, c⟩ := ih (advance s)
      exact inv_cons s.line _ (advance s).line _ _ a b c (le_refl _)
        (advance_line_le s) (by simp)
    case quote =>
      simp only [tokLoop, hcl]
      obtain ⟨a, b, c⟩ := ih (strTok s).2
      exact inv_cons s.line (strTok s).1 (strTok s).2.line _ _ a b c
        (by rw [strTok_line_eq]; exact strTok_line_le s)
        (le_of_eq (strTok_line_eq s)) (by simp [strTok])
    case hash =>
      simp only [tokLoop, hcl]
      obtain ⟨a, b, c⟩ := ih (commentScan s.rem s.line s.col)
      exact ⟨a, fun t ht =>
        ⟨le_trans (commentScan_line_le _ _ _) (b t ht).1, (b t ht).2.1, (b t ht).2.2⟩,
        le_trans (commentScan_line_le _ _ _) c⟩
    case newline => exact absurd hcl (classify_ne_newline _)
    case other =>
      simp only [tokLoop, hcl]
      obtain ⟨a, b, c⟩ := ih (advance s)
      exact inv_cons s.line _ (advance s).line _ _ a b c (le_refl _)
        (advance_line_le s) (by simp)

/-! ## Claim theorems -/

/-- Claim C1 (code_bug evidence): for the source `var x is 40 plus 2`,
newline, `print x`, the front end parses the expected two top-level
statements, but the code generator dereferences a null insertion point
while lowering the top-level VarDecl (no function wraps top-level code and
the builder never gets an insertion block), so the pipeline cannot emit
runnable IR, let alone print `42.000000`. -/
theorem c1_toplevel_pipeline_crashes :
    (parseTokens (tokenize ("var x is 40 plus 2\nprint x").toList)) =
      ([.varDecl "x" false (.binop .add (.num 40) (.num 2)),
        .printS (.ident "x")], []) ∧
    compileSrc ("var x is 40 plus 2\nprint x").toList = .error .nullInsert :=
  ⟨rfl, rfl⟩

/-- Claim C2 (code_bug evidence): `tokenize` never emits an EOL token for
any input — `isspace('\n')` makes the whitespace branch swallow every
newline before the dead `case '\n'` of the switch — and on the concrete
input `a\nb` the newline produces no EOL token. -/
theorem c2_no_eol_token :
    (∀ (src : List Char) (t : Token), t ∈ tokenize src → t.type ≠ TokenType.EOL) ∧
    tokenize ("a\nb").toList =
      [⟨TokenType.IDENTIFIER, "a", 2, 1⟩, ⟨TokenType.IDENTIFIER, "b", 2, 2⟩,
       ⟨TokenType.END_OF_FILE, "", 2, 2⟩] := by
  constructor
  · intro src t ht
    unfold tokenize at ht
    rcases List.mem_append.mp ht with h | h
    · exact ((tokLoop_inv _ _).2.1 t h).2.2
    · rcases List.mem_singleton.mp h with rfl
      simp
  · rfl

/-- Witness for C2: the first token of `tokenize "a"` is covered by the
universal statement. -/
theorem c2_no_eol_token_witness :
    (⟨TokenType.IDENTIFIER, "a", 1, 1⟩ : Token).type ≠ TokenType.EOL :=
  c2_no_eol_token.1 ("a").toList ⟨TokenType.IDENTIFIER, "a", 1, 1⟩ (by decide)

/-- Claim C3 (code_bug evidence): because the lexer never emits EOL, a
parse error on the first line makes the recovery loop skip to
END_OF_FILE, so the following well-formed `print 1` statement is lost and
the program root is empty (first conjunct).  The diagnostic does carry
the line and column of the offending token.  Had the newline produced an
EOL token, the very same parser would recover and keep `print 1`
(second conjunct, on a token list with the EOL inserted by hand). -/
theorem c3_recovery_skips_to_eof :
    (parseTokens (tokenize ("var x is\nprint 1").toList)) =
      ([], [⟨2, 2, "Unexpected token: print"⟩]) ∧
    parseTokens
      [⟨TokenType.VARIABLE, "var", 1, 1⟩, ⟨TokenType.IDENTIFIER, "x", 1, 5⟩,
       ⟨TokenType.ASSIGN, "is", 1, 7⟩, ⟨TokenType.EOL, "\n", 1, 9⟩,
       ⟨TokenType.PRINT, "print", 2, 1⟩, ⟨TokenType.NUMBER, "1", 2, 7⟩,
       ⟨TokenType.END_OF_FILE, "", 2, 8⟩] =
      ([.printS (.num 1)], [⟨1, 9, "Unexpected token: \n"⟩]) :=
  ⟨rfl, rfl⟩

/-- Claim C4 (counterexample): `a is b is c` does not parse to the
right-leaning `Assign(a, Assign(b, c))`. -/
theorem c4_counterexample :
    (parseTokens (tokenize ("a is b is c").toList)).1 ≠
      [TAst.binop .assign (.ident "a") (.binop .assign (.ident "b") (.ident "c"))] := by
  have h : (parseTokens (tokenize ("a is b is c").toList)).1 =
      [TAst.binop .assign (.binop .assign (.ident "a") (.ident "b")) (.ident "c")] := rfl
  rw [h]
  simp

/-- Claim C4 (amended): `a is b is c` parses to the left-leaning
`Assign(Assign(a, b), c)` — assignment chains are left-associative — and
it parses cleanly (no diagnostics). -/
theorem c4_amended_left_assoc :
    (parseTokens (tokenize ("a is b is c").toList)) =
      ([TAst.binop .assign (.binop .assign (.ident "a") (.ident "b")) (.ident "c")], []) :=
  rfl

/-- Claim C5 (counterexample): positions are not always lexicographically
non-decreasing: after the multi-line string in `xxx"␤"c` the STRING token
carries (line 2, column 4) while the following identifier is at
(line 2, column 3). -/
theorem c5_counterexample :
    ¬ List.Chain' posLE (tokenize ("xxx\"\n\"c").toList) := by
  intro h
  have he : tokenize ("xxx\"\n\"c").toList =
      [⟨TokenType.IDENTIFIER, "xxx", 1, 1⟩, ⟨TokenType.STRING, "\n", 2, 4⟩,
       ⟨TokenType.IDENTIFIER, "c", 2, 3⟩, ⟨TokenType.END_OF_FILE, "", 2, 3⟩] := rfl
  rw [he, List.chain'_cons, List.chain'_cons] at h
  exact absurd h.2.1 (by decide)

/-- Claim C5 (amended): the line components of the token stream are
non-decreasing for every input; full (line, column) lexicographic
monotonicity can fail only in the column component, when a string literal
spans a newline. -/
theorem c5_amended_line_monotone (src : List Char) :
    List.Chain' (fun a b => a.line ≤ b.line) (tokenize src) := by
  unfold tokenize
  obtain ⟨a, b, c⟩ := tokLoop_inv (src.length + 1) ⟨src, 1, 1⟩
  refine List.chain'_append.mpr ⟨a, List.chain'_singleton _, ?_⟩
  intro x hx y hy
  have hx' : x ∈ (tokLoop (src.length + 1) ⟨src, 1, 1⟩).1 :=
    List.mem_of_mem_getLast? hx
  simp only [List.head?_cons, Option.mem_some_iff] at hy
  rw [← hy]
  exact (b x hx').2.1

/-- Claim C6: for every input, `tokenize` terminates (it is a total Lean
function) and returns a non-empty list whose last element is the
END_OF_FILE token. -/
theorem c6_tokenize_ends_eof (src : List Char) :
    tokenize src ≠ [] ∧
    ∃ t, (tokenize src).getLast? = some t ∧ t.type = TokenType.END_OF_FILE := by
  unfold tokenize
  refine ⟨by simp, ⟨_, List.getLast?_concat _, ?_⟩⟩
  rfl

/-- Claim C8: the glue words `than` and `by` are consumed without
affecting the tree: `a greater than b` and `a greater b` both parse to
Gt(a, b); likewise for `less than`/`less` and `divided by`/`divided`. -/
theorem c8_glue_words :
    (parseTokens (tokenize ("a greater than b").toList)) =
      ([TAst.binop .gt (.ident "a") (.ident "b")], []) ∧
    (parseTokens (tokenize ("a greater b").toList)) =
      ([TAst.binop .gt (.ident "a") (.ident "b")], []) ∧
    (parseTokens (tokenize ("a less than b").toList)) =
      ([TAst.binop .lt (.ident "a") (.ident "b")], []) ∧
    (parseTokens (tokenize ("a less b").toList)) =
      ([TAst.binop .lt (.ident "a") (.ident "b")], []) ∧
    (parseTokens (tokenize ("a divided by b").toList)) =
      ([TAst.binop .div (.ident "a") (.ident "b")], []) ∧
    (parseTokens (tokenize ("a divided b").toList)) =
      ([TAst.binop .div (.ident "a") (.ident "b")], []) :=
  ⟨rfl, rfl, rfl, rfl, rfl, rfl⟩

theorem tokLoop_nil (fu line col : Nat) :
    tokLoop fu ⟨[], line, col⟩ = ([], ⟨[], line, col⟩) := by
  cases fu <;> rfl

theorem strScan_clean (l : List Char) :
    ∀ line col (acc : String), '"' ∉ l → nulC ∉ l →
    ∃ l2 c2, strScan l line col acc = (⟨acc.data ++ l⟩, ⟨[], l2, c2⟩) := by
  induction l with
  | nil =>
    intro line col acc _ _
    exact ⟨line, col, by simp [strScan]⟩
  | cons ch rest ih =>
    intro line col acc hq hn
    have hch1 : ch ≠ nulC := fun e => hn (e ▸ List.mem_cons_self _ _)
    have hch2 : ch ≠ '"' := fun e => hq (e ▸ List.mem_cons_self _ _)
    obtain ⟨l2, c2, he⟩ := ih (advStep rest line col).1 (advStep rest line col).2
      (acc.push ch) (fun hm => hq (List.mem_cons_of_mem _ hm))
      (fun hm => hn (List.mem_cons_of_mem _ hm))
    refine ⟨l2, c2, ?_⟩
    simp only [strScan]
    rw [if_pos (by simp [hch1, hch2])]
    rw [he]
    congr 1
    simp [String.push]

/-- Behaviour of one loop iteration at an opening quote with no closing
quote and no NUL in the rest of the input: the entire remainder becomes
the lexeme of a single STRING token and the input is exhausted. -/
theorem tokLoop_quote_clean (rest : List Char) (line col fu : Nat)
    (hq : '"' ∉ rest) (hn : nulC ∉ rest) :
    ∃ l2 c2,
      tokLoop (fu + 1) ⟨'"' :: rest, line, col⟩ =
        ([⟨TokenType.STRING, ⟨rest⟩, l2, col⟩], ⟨[], l2, c2⟩) := by
  obtain ⟨l2, c2, hscan⟩ := strScan_clean rest (advStep rest line col).1
    (advStep rest line col).2 ("") hq hn
  refine ⟨l2, c2, ?_⟩
  have hcl : classify (cur ⟨'"' :: rest, line, col⟩) = CharClass.quote := rfl
  simp only [tokLoop, hcl]
  simp only [strTok, advance]
  rw [hscan]
  rw [if_neg (show ¬ cur ⟨[], l2, c2⟩ = '"' by simp only [cur]; decide)]
  rw [tokLoop_nil]
  simp

/-- Claim C10 (amended): whenever the lexer loop meets an opening quote
whose remainder contains neither a closing quote nor a NUL byte, it does
not fail and emits no UNKNOWN token: the result is exactly one STRING
token whose lexeme is the entire remainder, at the quote's column; and at
the top level `tokenize` returns that STRING token followed by the
END_OF_FILE sentinel. -/
theorem c10_amended_unterminated_string (rest : List Char) (line col fu : Nat)
    (hq : '"' ∉ rest) (hn : nulC ∉ rest) :
    (∃ l2 c2,
      tokLoop (fu + 1) ⟨'"' :: rest, line, col⟩ =
        ([⟨TokenType.STRING, ⟨rest⟩, l2, col⟩], ⟨[], l2, c2⟩)) ∧
    (∃ l3 c3,
      tokenize ('"' :: rest) =
        [⟨TokenType.STRING, ⟨rest⟩, l3, 1⟩, ⟨TokenType.END_OF_FILE, "", l3, c3⟩]) := by
  refine ⟨tokLoop_quote_clean rest line col fu hq hn, ?_⟩
  obtain ⟨l3, c3, h1⟩ := tokLoop_quote_clean rest 1 1 (rest.length + 1) hq hn
  refine ⟨l3, c3, ?_⟩
  unfold tokenize
  simp only [List.length_cons]
  rw [h1]
  simp

/-- Witness for C10 at the concrete input `"ab` (quote then `ab`). -/
theorem c10_amended_unterminated_string_witness :
    (∃ l2 c2,
      tokLoop 1 ⟨['"', 'a', 'b'], 1, 5⟩ =
        ([⟨TokenType.STRING, ⟨['a', 'b']⟩, l2, 5⟩], ⟨[], l2, c2⟩)) ∧
    (∃ l3 c3,
      tokenize ['"', 'a', 'b'] =
        [⟨TokenType.STRING, ⟨['a', 'b']⟩, l3, 1⟩, ⟨TokenType.END_OF_FILE, "", l3, c3⟩]) :=
  c10_amended_unterminated_string ['a', 'b'] 1 5 0 (by decide) (by decide)

/-- Claim C10 (counterexample): with a NUL byte inside the unterminated
literal, the STRING lexeme is not the entire remainder after the opening
quote — lexing stops at the NUL and discards the rest of the input. -/
theorem c10_counterexample :
    tokenize ['"', 'a', nulC, 'b'] =
      [⟨TokenType.STRING, "a", 1, 1⟩, ⟨TokenType.END_OF_FILE, "", 1, 3⟩] ∧
    ("a" : String) ≠ ⟨['a', nulC, 'b']⟩ :=
  ⟨rfl, by decide⟩

/-! ## Code generator lemmas and claims C7, C9 -/


theorem ebind_match {α β : Type} (x : Except CGErr α) (f : α → Except CGErr β) :
    x >>= f = match x with | .error e => .error e | .ok a => f a := by
  cases x <;> rfl

theorem emitI_instrs {i : Instr} {s s' : CGState}
    (h : emitI i s = .ok s') : s.instrs <+: s'.instrs := by
  unfold emitI at h
  split at h
  · simp at h
  · simp only [Except.ok.injEq] at h
    subst h
    exact List.prefix_append _ _

theorem createArith_instrs {k : AOp} {a b : LValue} {s : CGState}
    {pr : LValue × CGState} (h : createArith k a b s = .ok pr) :
    s.instrs <+: pr.2.instrs := by
  unfold createArith at h
  split at h
  · simp only [Except.ok.injEq] at h
    subst h
    exact List.prefix_refl _
  · simp only [ebind_match] at h
    split at h
    · simp at h
    · rename_i s1 h1
      simp only [Except.ok.injEq] at h
      subst h
      have h2 := emitI_instrs h1
      exact h2

theorem createFCmp_instrs {p : FPred} {a b : LValue} {s : CGState}
    {pr : LValue × CGState} (h : createFCmp p a b s = .ok pr) :
    s.instrs <+: pr.2.instrs := by
  unfold createFCmp at h
  split at h
  · simp only [Except.ok.injEq] at h
    subst h
    exact List.prefix_refl _
  · simp only [ebind_match] at h
    split at h
    · simp at h
    · rename_i s1 h1
      simp only [Except.ok.injEq] at h
      subst h
      have h2 := emitI_instrs h1
      exact h2

theorem createLoad_instrs {slot : LValue} {s : CGState}
    {pr : LValue × CGState} (h : createLoad slot s = .ok pr) :
    s.instrs <+: pr.2.instrs := by
  unfold createLoad at h
  simp only [ebind_match] at h
  split at h
  · simp at h
  · rename_i s1 h1
    simp only [Except.ok.injEq] at h
    subst h
    have h2 := emitI_instrs h1
    exact h2

theorem condCoerce_instrs {r : LValue} {s : CGState}
    {pr : LValue × CGState} (h : condCoerce r s = .ok pr) :
    s.instrs <+: pr.2.instrs := by
  unfold condCoerce at h
  split at h
  · simp only [Except.ok.injEq] at h
    subst h
    exact List.prefix_refl _
  · exact createFCmp_instrs h

theorem brIfOpen_instrs {target : Nat} {s s' : CGState}
    (h : brIfOpen target s = .ok s') : s.instrs <+: s'.instrs := by
  unfold brIfOpen at h
  split at h
  · simp at h
  · split at h
    · simp only [Except.ok.injEq] at h
      subst h
      exact List.prefix_refl _
    · exact emitI_instrs h

theorem retIfOpen_instrs {s s' : CGState}
    (h : retIfOpen s = .ok s') : s.instrs <+: s'.instrs := by
  unfold retIfOpen at h
  split at h
  · simp at h
  · split at h
    · simp only [Except.ok.injEq] at h
      subst h
      exact List.prefix_refl _
    · exact emitI_instrs h

theorem paramSetup_instrs {fid : Nat} : ∀ {i : Nat} {ps : List String}
    {s s' : CGState}, paramSetup fid i ps s = .ok s' → s.instrs <+: s'.instrs := by
  intro i ps
  induction ps generalizing i with
  | nil =>
    intro s s' h
    simp only [paramSetup, Except.ok.injEq] at h
    subst h
    exact List.prefix_refl _
  | cons pn rest ih =>
    intro s s' h
    simp only [paramSetup, ebind_match] at h
    split at h
    · simp at h
    · rename_i s1 h1
      split at h
      · simp at h
      · rename_i s2 h2
        have e1 := emitI_instrs h1
        have e2 := emitI_instrs h2
        have e3 := ih h
        exact (e1.trans e2).trans e3



set_option maxHeartbeats 1600000 in
/-- The visitor only appends to the instruction stream: a successful visit
leaves the previously emitted instructions as a prefix. -/
theorem visit_instrs (fu : Nat) : ∀ (q : VReq) (s s' : CGState),
    visit fu q s = .ok s' → s.instrs <+: s'.instrs := by
  induction fu with
  | zero => intro q s s' h; simp [visit] at h
  | succ f ih =>
    intro q s s' h
    rcases q with ast | l | l
    case seq =>
      rcases l with _ | ⟨a, rest⟩
      · simp only [visit, Except.ok.injEq] at h
        subst h
        exact List.prefix_refl _
      · simp only [visit, ebind_match] at h
        split at h
        · simp at h
        · rename_i s1 h1
          have e1 := ih _ _ _ h1
          have e2 := ih _ _ _ h
          exact e1.trans e2
    case args =>
      rcases l with _ | ⟨a, rest⟩
      · simp only [visit, Except.ok.injEq] at h
        subst h
        exact List.prefix_refl _
      · simp only [visit, ebind_match] at h
        split at h
        · simp at h
        · rename_i s1 h1
          have e1 := ih _ _ _ h1
          have e2 := ih _ _ _ h
          exact e1.trans e2
    case one =>
      rcases ast with ss | ss | ⟨nm, ic, init⟩ | ⟨op, lc, rc⟩ | v | st | n
        | ⟨nm, ps, bd⟩ | ⟨cn, as⟩ | ⟨cnd, tb, eb⟩ | ⟨cnd, bd⟩ | e | v
      -- program
      · simp only [visit] at h
        exact ih _ _ _ h
      -- block
      · simp only [visit] at h
        exact ih _ _ _ h
      -- varDecl
      · simp only [visit, ebind_match] at h
        split at h
        · simp at h
        · rename_i s1 h1
          split at h
          · simp at h
          · rename_i b
            split at h
            · simp at h
            · rename_i fid hfid
              split at h
              · simp at h
              · rename_i entry hentry
                split at h
                · simp at h
                · rename_i s3 h3
                  simp only [Except.ok.injEq] at h
                  subst h
                  have e1 := ih _ _ _ h1
                  have e3 := emitI_instrs h3
                  exact (e1.trans (List.prefix_append _ _)).trans e3
      -- binop
      · simp only [visit, ebind_match] at h
        split at h
        · simp at h
        · rename_i s1 h1
          split at h
          · simp at h
          · rename_i s2 h2
            have e1 := ih _ _ _ h1
            have e2 := ih _ _ _ h2
            have e12 := e1.trans e2
            split at h
            · rename_i a b
              split at h
              -- add, sub, mul, div
              · split at h
                · simp at h
                · rename_i pr hA
                  simp only [Except.ok.injEq] at h
                  subst h
                  exact e12.trans (createArith_instrs hA)
              · split at h
                · simp at h
                · rename_i pr hA
                  simp only [Except.ok.injEq] at h
                  subst h
                  exact e12.trans (createArith_instrs hA)
              · split at h
                · simp at h
                · rename_i pr hA
                  simp only [Except.ok.injEq] at h
                  subst h
                  exact e12.trans (createArith_instrs hA)
              · split at h
                · simp at h
                · rename_i pr hA
                  simp only [Except.ok.injEq] at h
                  subst h
                  exact e12.trans (createArith_instrs hA)
              -- assign
              · split at h
                · rename_i nm2
                  split at h
                  · simp only [Except.ok.injEq] at h
                    subst h
                    exact e12
                  · rename_i slot hslot
                    split at h
                    · simp at h
                    · rename_i s3 h3
                      simp only [Except.ok.injEq] at h
                      subst h
                      have e3 := emitI_instrs h3
                      exact e12.trans e3
                · simp only [Except.ok.injEq] at h
                  subst h
                  exact e12
              -- eq, ne, gt, lt
              · split at h
                · simp at h
                · rename_i pr hA
                  simp only [Except.ok.injEq] at h
                  subst h
                  exact e12.trans (createFCmp_instrs hA)
              · split at h
                · simp at h
                · rename_i pr hA
                  simp only [Except.ok.injEq] at h
                  subst h
                  exact e12.trans (createFCmp_instrs hA)
              · split at h
                · simp at h
                · rename_i pr hA
                  simp only [Except.ok.injEq] at h
                  subst h
                  exact e12.trans (createFCmp_instrs hA)
              · split at h
                · simp at h
                · rename_i pr hA
                  simp only [Except.ok.injEq] at h
                  subst h
                  exact e12.trans (createFCmp_instrs hA)
            · simp only [Except.ok.injEq] at h
              subst h
              exact e12
      -- num
      · simp only [visit, Except.ok.injEq] at h
        subst h
        exact List.prefix_refl _
      -- str
      · simp only [visit, Except.ok.injEq] at h
        subst h
        exact List.prefix_refl _
      -- ident
      · simp only [visit, ebind_match] at h
        split at h
        · simp only [Except.ok.injEq] at h
          subst h
          exact List.prefix_refl _
        · rename_i slot hslot
          split at h
          · simp at h
          · rename_i pr h1
            simp only [Except.ok.injEq] at h
            subst h
            have e := createLoad_instrs h1
            exact e
      -- func
      · simp only [visit, newBlock, setInsert, insertBlockInto, ebind_match] at h
        split at h
        · simp at h
        · rename_i s5 h5
          split at h
          · simp at h
          · rename_i s6 h6
            split at h
            · simp at h
            · rename_i s7 h7
              simp only [Except.ok.injEq] at h
              subst h
              have e5 := paramSetup_instrs h5
              have e6 := ih _ _ _ h6
              have e7 := retIfOpen_instrs h7
              exact (e5.trans e6).trans e7
      -- call
      · simp only [visit, ebind_match] at h
        split at h
        · simp only [Except.ok.injEq] at h
          subst h
          exact List.prefix_refl _
        · rename_i fi hfi
          split at h
          · simp only [Except.ok.injEq] at h
            subst h
            exact List.prefix_refl _
          · split at h
            · simp at h
            · rename_i s1 h1
              split at h
              · simp at h
              · rename_i s2 h2
                simp only [Except.ok.injEq] at h
                subst h
                have e1 := ih _ _ _ h1
                have e2 := emitI_instrs h2
                exact e1.trans e2
      -- ifS
      · simp only [visit, newBlock, setInsert, insertBlockInto, ebind_match] at h
        split at h
        · simp at h
        · rename_i s1 h1
          split at h
          · simp at h
          · rename_i r hr
            split at h
            · simp at h
            · rename_i vc hvc
              split at h
              · simp at h
              · rename_i cb hcb
                split at h
                · simp at h
                · rename_i fid hfid
                  split at h
                  · simp at h
                  · rename_i s6 h6
                    split at h
                    · simp at h
                    · rename_i s8 h8
                      split at h
                      · simp at h
                      · rename_i s9 h9
                        split at h
                        · simp at h
                        · rename_i s11 h11
                          split at h
                          · simp at h
                          · rename_i s12 h12
                            simp only [Except.ok.injEq] at h
                            subst h
                            have e1 := ih _ _ _ h1
                            have ec := condCoerce_instrs hvc
                            have e6 := emitI_instrs h6
                            have e8 := ih _ _ _ h8
                            have e9 := brIfOpen_instrs h9
                            have e12 := brIfOpen_instrs h12
                            have e11 : s9.instrs <+: s11.instrs := by
                              split at h11
                              · simp only [Except.ok.injEq] at h11
                                subst h11
                                exact List.prefix_refl _
                              · have e := ih _ _ _ h11
                                exact e
                            exact ((((((e1.trans ec).trans e6).trans e8).trans
                              e9).trans e11).trans e12)
      -- whileS
      · simp only [visit, newBlock, setInsert, insertBlockInto, ebind_match] at h
        split at h
        · simp at h
        · rename_i cb hcb
          split at h
          · simp at h
          · rename_i fid hfid
            split at h
            · simp at h
            · rename_i s4 h4
              split at h
              · simp at h
              · rename_i s6 h6
                split at h
                · simp at h
                · rename_i r hr
                  split at h
                  · simp at h
                  · rename_i vc hvc
                    split at h
                    · simp at h
                    · rename_i s8 h8
                      split at h
                      · simp at h
                      · rename_i s10 h10
                        split at h
                        · simp at h
                        · rename_i s11 h11
                          simp only [Except.ok.injEq] at h
                          subst h
                          have e4 := emitI_instrs h4
                          have e6 := ih _ _ _ h6
                          have ec := condCoerce_instrs hvc
                          have e8 := emitI_instrs h8
                          have e10 := ih _ _ _ h10
                          have e11 := brIfOpen_instrs h11
                          exact ((((e4.trans e6).trans ec).trans e8).trans
                            e10).trans e11
      -- printS
      · simp only [visit, ebind_match] at h
        split at h
        · simp at h
        · rename_i s1 h1
          split at h
          · simp at h
          · rename_i v hv
            have e1 := ih _ _ _ h1
            have e2 := emitI_instrs h
            exact e1.trans e2
      -- ret
      · rcases v with _ | e
        · simp only [visit] at h
          exact emitI_instrs h
        · simp only [visit, ebind_match] at h
          split at h
          · simp at h
          · rename_i s1 h1
            have e1 := ih _ _ _ h1
            have e2 := emitI_instrs h
            exact e1.trans e2



theorem emitI_ok_instrs {i : Instr} {s s' : CGState} {b : Nat}
    (hb : s.insertBlk = some b) (h : emitI i s = .ok s') :
    s'.instrs = s.instrs ++ [(b, i)] := by
  unfold emitI at h
  rw [hb] at h
  simp only [Except.ok.injEq] at h
  subst h
  rfl

theorem emitI_ok_instrs2 {i : Instr} {s s' : CGState}
    (h : emitI i s = .ok s') :
    ∃ b, s.insertBlk = some b ∧ s'.instrs = s.instrs ++ [(b, i)] := by
  unfold emitI at h
  split at h
  · simp at h
  · rename_i b hb
    simp only [Except.ok.injEq] at h
    subst h
    exact ⟨b, hb, rfl⟩

/-- Characterization of the shared coercion: an i1 value passes through
untouched; a foldable constant becomes the folded `!= 0.0` boolean; any
other value gets exactly one emitted `fcmp one _ 0.0`. -/
theorem condCoerce_spec (r : LValue) (st : CGState) :
    (typeOfV r = .i1 → condCoerce r st = .ok (r, st)) ∧
    (typeOfV r ≠ .i1 →
      (∀ x, asCfp r = some x →
        condCoerce r st = .ok (.cbool (foldC .one x 0), st)) ∧
      (asCfp r = none → ∀ v s2, condCoerce r st = .ok (v, s2) →
        ∃ cb, st.insertBlk = some cb ∧
          v = .reg st.nextReg .i1 ∧
          s2.instrs = st.instrs ++ [(cb, .fcmp .one st.nextReg r (.cfp 0))])) := by
  refine ⟨fun h => by simp [condCoerce, h], fun h => ⟨fun x hx => ?_, ?_⟩⟩
  · unfold condCoerce
    rw [if_neg h]
    unfold createFCmp
    rw [hx]
    rfl
  · intro hn v s2 hc
    unfold condCoerce at hc
    rw [if_neg h] at hc
    unfold createFCmp at hc
    rw [hn] at hc
    simp only [ebind_match] at hc
    split at hc
    · simp at hc
    · rename_i s1 h1
      simp only [Except.ok.injEq, Prod.mk.injEq] at hc
      obtain ⟨hv, hs2⟩ := hc
      subst hv
      subst hs2
      unfold emitI at h1
      split at h1
      · simp at h1
      · rename_i b hb
        simp only [Except.ok.injEq] at h1
        subst h1
        exact ⟨b, hb, rfl, rfl⟩



/-- Decomposition of a successful If lowering: the instructions are the
condition's, then the coercion's (inside `condCoerce`), then the
conditional branch on the coerced value targeting the two fresh blocks,
then the rest. -/
theorem visitIf_decomp {fu : Nat} {cond tb : TAst} {eb : Option TAst}
    {s s1 sIf : CGState} {r : LValue}
    (h1 : visit fu (.one cond) s = .ok s1) (hr : s1.currentValue = some r)
    (hIf : visit (fu + 1) (.one (.ifS cond tb eb)) s = .ok sIf) :
    ∃ v s2 cb rest, condCoerce r s1 = .ok (v, s2) ∧ s2.insertBlk = some cb ∧
      sIf.instrs = s2.instrs ++ (cb, Instr.condbr v s2.nextBlk (s2.nextBlk + 1)) :: rest := by
  simp only [visit, newBlock, setInsert, insertBlockInto, ebind_match] at hIf
  split at hIf
  · rename_i e heq
    rw [h1] at heq
    simp at heq
  · rename_i a heq
    rw [h1] at heq
    simp only [Except.ok.injEq] at heq
    subst heq
    split at hIf
    · rename_i heq2
      rw [hr] at heq2
      simp at heq2
    · rename_i r' heq2
      rw [hr] at heq2
      simp only [Option.some.injEq] at heq2
      subst heq2
      split at hIf
      · simp at hIf
      · rename_i vc hvc
        split at hIf
        · simp at hIf
        · rename_i cb hcb
          split at hIf
          · simp at hIf
          · rename_i fid hfid
            split at hIf
            · simp at hIf
            · rename_i s6 h6
              split at hIf
              · simp at hIf
              · rename_i s8 h8
                split at hIf
                · simp at hIf
                · rename_i s9 h9
                  split at hIf
                  · simp at hIf
                  · rename_i s11 h11
                    split at hIf
                    · simp at hIf
                    · rename_i s12 h12
                      simp only [Except.ok.injEq] at hIf
                      subst hIf
                      obtain ⟨b', hb', e6⟩ := emitI_ok_instrs2 h6
                      have hbc : some b' = some cb := hb'.symm.trans hcb
                      simp only [Option.some.injEq] at hbc
                      have hbc2 : cb = b' := hbc.symm
                      subst hbc2
                      simp only [] at e6
                      obtain ⟨t8, ht8⟩ := visit_instrs _ _ _ _ h8
                      simp only [] at ht8
                      obtain ⟨t9, ht9⟩ := brIfOpen_instrs h9
                      have e11 : ∃ t11, s9.instrs ++ t11 = s11.instrs := by
                        split at h11
                        · simp only [Except.ok.injEq] at h11
                          subst h11
                          exact ⟨[], by simp⟩
                        · have e := visit_instrs _ _ _ _ h11
                          exact e
                      obtain ⟨t11, ht11⟩ := e11
                      obtain ⟨t12, ht12⟩ := brIfOpen_instrs h12
                      refine ⟨vc.1, vc.2, cb, t8 ++ t9 ++ t11 ++ t12, hvc, hcb, ?_⟩
                      rw [← ht12, ← ht11, ← ht9, ← ht8, e6]
                      simp



/-- Decomposition of a successful While lowering: a branch to the fresh
condition block, the condition's instructions, the coercion, then the
conditional branch on the coerced value targeting the fresh body and exit
blocks. -/
theorem visitWhile_decomp {fu : Nat} {cond bd : TAst} {s sW : CGState}
    (hW : visit (fu + 1) (.one (.whileS cond bd)) s = .ok sW) :
    ∃ cb0 fid s4 s1 r v s2 cb rest,
      s.insertBlk = some cb0 ∧
      List.lookup cb0 s.blockParent = some fid ∧
      emitI (.br s.nextBlk)
        { s with nextBlk := s.nextBlk + 3,
                 blockParent := s.blockParent ++ [(s.nextBlk, fid)] } = .ok s4 ∧
      visit fu (.one cond) (setInsert s.nextBlk s4) = .ok s1 ∧
      s1.currentValue = some r ∧
      condCoerce r s1 = .ok (v, s2) ∧
      s2.insertBlk = some cb ∧
      sW.instrs = s2.instrs ++
        (cb, Instr.condbr v (s.nextBlk + 1) (s.nextBlk + 2)) :: rest := by
  simp only [visit, newBlock, setInsert, insertBlockInto, ebind_match] at hW
  split at hW
  · simp at hW
  · rename_i cb0 hcb0
    split at hW
    · simp at hW
    · rename_i fid hfid
      split at hW
      · simp at hW
      · rename_i s4 h4
        split at hW
        · simp at hW
        · rename_i s1 h1
          split at hW
          · simp at hW
          · rename_i r hr
            split at hW
            · simp at hW
            · rename_i vc hvc
              split at hW
              · simp at hW
              · rename_i s8 h8
                split at hW
                · simp at hW
                · rename_i s10 h10
                  split at hW
                  · simp at hW
                  · rename_i s11 h11
                    simp only [Except.ok.injEq] at hW
                    subst hW
                    obtain ⟨b', hb', e8⟩ := emitI_ok_instrs2 h8
                    obtain ⟨t10, ht10⟩ := visit_instrs _ _ _ _ h10
                    simp only [] at ht10
                    obtain ⟨t11, ht11⟩ := brIfOpen_instrs h11
                    refine ⟨cb0, fid, s4, s1, r, vc.1, vc.2, b', t10 ++ t11,
                      hcb0, hfid, h4, h1, hr, hvc, hb', ?_⟩
                    rw [← ht11, ← ht10, e8]
                    simp



/-- Claim C7: in If and While lowering, an already-boolean (i1) condition
value is used directly (no wrap), and a non-boolean condition is wrapped
exactly once as a `!= 0.0` comparison (emitted as one fcmp instruction, or
folded when the condition is a float constant) before the conditional
branch; the branch condition is exactly the coerced value. -/
theorem c7_condition_coercion :
    (∀ (r : LValue) (st : CGState),
      (typeOfV r = .i1 → condCoerce r st = .ok (r, st)) ∧
      (typeOfV r ≠ .i1 →
        (∀ x, asCfp r = some x →
          condCoerce r st = .ok (.cbool (foldC .one x 0), st)) ∧
        (asCfp r = none → ∀ v s2, condCoerce r st = .ok (v, s2) →
          ∃ cb, st.insertBlk = some cb ∧
            v = .reg st.nextReg .i1 ∧
            s2.instrs = st.instrs ++ [(cb, .fcmp .one st.nextReg r (.cfp 0))]))) ∧
    (∀ (fu : Nat) (cond tb : TAst) (eb : Option TAst) (s s1 sIf : CGState)
        (r : LValue),
      visit fu (.one cond) s = .ok s1 → s1.currentValue = some r →
      visit (fu + 1) (.one (.ifS cond tb eb)) s = .ok sIf →
      ∃ v s2 cb rest, condCoerce r s1 = .ok (v, s2) ∧ s2.insertBlk = some cb ∧
        sIf.instrs = s2.instrs ++
          (cb, Instr.condbr v s2.nextBlk (s2.nextBlk + 1)) :: rest) ∧
    (∀ (fu : Nat) (cond bd : TAst) (s sW : CGState),
      visit (fu + 1) (.one (.whileS cond bd)) s = .ok sW →
      ∃ cb0 fid s4 s1 r v s2 cb rest,
        s.insertBlk = some cb0 ∧
        List.lookup cb0 s.blockParent = some fid ∧
        emitI (.br s.nextBlk)
          { s with nextBlk := s.nextBlk + 3,
                   blockParent := s.blockParent ++ [(s.nextBlk, fid)] } = .ok s4 ∧
        visit fu (.one cond) (setInsert s.nextBlk s4) = .ok s1 ∧
        s1.currentValue = some r ∧
        condCoerce r s1 = .ok (v, s2) ∧
        s2.insertBlk = some cb ∧
        sW.instrs = s2.instrs ++
          (cb, Instr.condbr v (s.nextBlk + 1) (s.nextBlk + 2)) :: rest) :=
  ⟨condCoerce_spec,
   fun _ _ _ _ _ _ _ _ h1 hr hIf => visitIf_decomp h1 hr hIf,
   fun _ _ _ _ _ hW => visitWhile_decomp hW⟩

/-- Witness for C7: a constant (non-boolean) condition inside a function;
the wrap folds and the branch is on the folded boolean. -/
theorem c7_condition_coercion_witness :
    ∃ sIf, visit 3 (.one (.ifS (.num 5) (.block []) none)) sampleEntryState = .ok sIf ∧
      ∃ v s2 cb rest,
        condCoerce (.cfp 5) { sampleEntryState with currentValue := some (.cfp 5) } =
          .ok (v, s2) ∧
        s2.insertBlk = some cb ∧
        sIf.instrs = s2.instrs ++
          (cb, Instr.condbr v s2.nextBlk (s2.nextBlk + 1)) :: rest := by
  have hIf : visit 3 (.one (.ifS (.num 5) (.block []) none)) sampleEntryState =
      .ok (((visit 3 (.one (.ifS (.num 5) (.block []) none))
        sampleEntryState).toOption).getD sampleEntryState) := by rfl
  exact ⟨_, hIf,
    c7_condition_coercion.2.1 2 (.num 5) (.block []) none sampleEntryState
      { sampleEntryState with currentValue := some (.cfp 5) } _ (.cfp 5)
      rfl rfl hIf⟩

/-- Claim C9: a successful Function visit restores the symbol table: the
generator's named values after the visit equal the values before it, so
bindings made inside the function do not leak out. -/
theorem c9_function_scope_restore (fu : Nat) (name : String) (ps : List String)
    (body : TAst) (s s' : CGState)
    (h : visit (fu + 1) (.one (.func name ps body)) s = .ok s') :
    s'.namedValues = s.namedValues := by
  simp only [visit, newBlock, setInsert, insertBlockInto, ebind_match] at h
  repeat' split at h
  all_goals simp at h
  all_goals (subst h; rfl)

/-- Witness for C9: emitting `function add(a) { return a }` from the
initial state leaves the (empty) outer symbol table unchanged. -/
theorem c9_function_scope_restore_witness :
    ∃ s', visit 5 (.one (.func ("add") ["a"]
        (.block [.ret (some (.ident ("a")))]))) initCG = .ok s' ∧
      s'.namedValues = initCG.namedValues := by
  have h : visit 5 (.one (.func ("add") ["a"]
      (.block [.ret (some (.ident ("a")))]))) initCG =
      .ok (((visit 5 (.one (.func ("add") ["a"]
        (.block [.ret (some (.ident ("a")))]))) initCG).toOption).getD initCG) := by
    rfl
  exact ⟨_, h, c9_function_scope_restore 4 _ _ _ _ _ h⟩

end Toplang
